import Mathlib

/-!
Verification development for the wow_guilds data-refresh pipeline.

The Rust sources are embedded shallowly:

* `src/guild_data.rs` : `Difficulty`, `Difficulty::from_progress`,
  `parse_progression`, and the comparator closure inside `sort_guilds`
  (`Vec::sort_by` is a stable sort, modelled by `List.insertionSort`,
  which is also stable, so it computes the same list).
* `src/database.rs` : the `members` / `members_tmp` / `members_old`
  tables, `insert_temp_member` (`INSERT OR REPLACE`, keyed upsert) and
  `swap_members_tables` (four SQL statements inside one transaction).
* `src/raider_io.rs` : the retry loop of `execute_request_with_retry`
  and the response handling of `fetch_player_data`.
* `src/parser.rs` and `src/guild_data.rs` : the per-job result logic of
  the two fetch pipelines (`generate_members_data`, `fetch_all_guild_data`).
* `src/types.rs` : the `GuildName` / `RealmName` / `PlayerName`
  constructors, whose failed assertions are modelled by `Option.none`.

Machine floats (`f64` fields such as `best_percent`) are modelled by `ℚ`;
the comparisons in the source use `partial_cmp(..).unwrap_or(Equal)`, which
agrees with the total rational order on every non-NaN value, and NaN is
outside this model.  Rust `String` order (byte-wise lexicographic on
UTF-8) agrees with codepoint-wise lexicographic order, modelled on
`List Char`.
-/

/-! ### Generic comparator helpers -/

/-- The comparator of a linear order, as Rust `Ord::cmp` (and as
`partial_cmp(..).unwrap_or(Equal)` on non-NaN floats). -/
def cmpLin {α : Type} [LinearOrder α] (x y : α) : Ordering :=
  if x < y then .lt else if x = y then .eq else .gt

/-- Lexicographic comparison of char lists: Rust `String` ordering. -/
def cmpCharList : List Char → List Char → Ordering
  | [], [] => .eq
  | [], _ :: _ => .lt
  | _ :: _, [] => .gt
  | c :: cs, d :: ds =>
    match cmpLin c d with
    | .eq => cmpCharList cs ds
    | o => o

/-- `String` comparison, as Rust `Ord for String`. -/
def cmpStr (s t : String) : Ordering := cmpCharList s.data t.data

/-! ### Progression parsing (`src/guild_data.rs`) -/

/-- Difficulty levels in order of importance; the numbers below are the
Rust enum discriminants (`Lfr = 1, ..., Mythic = 4`). -/
inductive Difficulty : Type
  | Lfr
  | Normal
  | Heroic
  | Mythic
deriving DecidableEq

/-- Rust discriminant of a `Difficulty` value. -/
def Difficulty.toNat : Difficulty → Nat
  | .Lfr => 1
  | .Normal => 2
  | .Heroic => 3
  | .Mythic => 4

/-- Derived `Ord` on the Rust enum: comparison of discriminants. -/
def Difficulty.cmp (d e : Difficulty) : Ordering :=
  cmpLin d.toNat e.toNat

/-- Prefix test on char lists (helper for the `contains` test below). -/
def startsWithSeq : List Char → List Char → Bool
  | [], _ => true
  | _ :: _, [] => false
  | p :: ps, c :: cs => p = c && startsWithSeq ps cs

/-- Substring test on char lists: Rust `str::contains` with a literal
pattern. -/
def containsSeq (pat : List Char) : List Char → Bool
  | [] => startsWithSeq pat []
  | c :: cs => startsWithSeq pat (c :: cs) || containsSeq pat cs

/-- Rust `str::trim` on the char-list view (drop whitespace at both
ends). -/
def trimChars (cs : List Char) : List Char :=
  ((cs.dropWhile Char.isWhitespace).reverse.dropWhile Char.isWhitespace).reverse

/-- Value of an all-digit char list; `none` when empty or when any char
is not an ASCII digit. -/
def digitsVal? (cs : List Char) : Option Nat :=
  cs.foldl
    (fun acc c =>
      acc.bind fun n => if c.isDigit then some (n * 10 + (c.toNat - '0'.toNat)) else none)
    (if cs.isEmpty then none else some 0)

/-- Rust `str::parse::<u8>()`: optional leading `+`, ASCII digits, value
at most 255. -/
def parseU8? (cs : List Char) : Option Nat :=
  let body := match cs with
    | '+' :: rest => rest
    | _ => cs
  (digitsVal? body).bind fun n => if n ≤ 255 then some n else none

/-- `Difficulty::from_progress`: look at the last char of the summary,
default `'N'` on an empty string; on an unexpected char, fall back to
`Lfr` exactly when the string contains `"LFR"`, otherwise `Normal`. -/
def Difficulty.fromProgress (progress : String) : Difficulty :=
  let c := (progress.data.getLast?).getD 'N'
  if c = 'M' then .Mythic
  else if c = 'H' then .Heroic
  else if c = 'N' then .Normal
  else if containsSeq ['L', 'F', 'R'] progress.data then .Lfr
  else .Normal

/-- `parse_progression`: boss count is the text before the first `/`,
trimmed and parsed as `u8` with fallback 0; difficulty from
`Difficulty::from_progress`. -/
def parse_progression (progress : String) : Nat × Difficulty :=
  ((parseU8? (trimChars (progress.data.takeWhile fun c => c ≠ '/'))).getD 0,
   Difficulty.fromProgress progress)

/-! ### Guild records and the ranking comparator (`src/guild_data.rs`) -/

/-- `GuildData` as used by `sort_guilds` and the tests in
`guild_data.rs` (the struct declaration in `raider_io.rs` lacks
`defeated_at`, but the comparator and every test constructor use it).
`rank` holds the `u32` inside `Option<WorldRank>`; `best_percent`
models the `f64`; `defeated_at` the `Option<String>` timestamp. -/
structure GuildData where
  name : String
  realm : String
  progress : String
  rank : Option Nat
  best_percent : ℚ
  pull_count : Option Nat
  defeated_at : Option String
deriving DecidableEq

/-- `a.rank.as_ref().filter(|r| r.value() > 0)`. -/
def posRank (x : Option Nat) : Option Nat :=
  match x with
  | some r => if 0 < r then some r else none
  | none => none

/-- The 8/8-Mythic tie-break of the comparator: world rank ascending with
zero ranks filtered out, a present rank before an absent one, otherwise
best percent ascending. -/
def rankTie (a b : GuildData) : Ordering :=
  match posRank a.rank, posRank b.rank with
  | some ra, some rb => cmpLin ra rb
  | some _, none => .lt
  | none, some _ => .gt
  | none, none => cmpLin a.best_percent b.best_percent

/-- The generic same-boss-count tie-break: kill time ascending, a present
kill time before an absent one, otherwise best percent ascending. -/
def timeTie (a b : GuildData) : Ordering :=
  match a.defeated_at, b.defeated_at with
  | some ta, some tb => cmpStr ta tb
  | some _, none => .lt
  | none, some _ => .gt
  | none, none => cmpLin a.best_percent b.best_percent

/-- The comparator closure of `sort_guilds`: difficulty first (higher
wins), then the 8/8-Mythic world-rank special case, otherwise boss count
descending with `timeTie` on equality. -/
def cmpGuilds (a b : GuildData) : Ordering :=
  let pa := parse_progression a.progress
  let pb := parse_progression b.progress
  if pa.2 ≠ pb.2 then Difficulty.cmp pb.2 pa.2
  else if pa.2 = .Mythic ∧ pa.1 = 8 ∧ pb.1 = 8 then rankTie a b
  else
    match cmpLin pb.1 pa.1 with
    | .eq => timeTie a b
    | o => o

/-- `a` sorts no later than `b` under the comparator. -/
def leG (a b : GuildData) : Prop := cmpGuilds a b ≠ .gt

instance : DecidableRel leG := fun a b =>
  inferInstanceAs (Decidable ¬(cmpGuilds a b = .gt))

/-- `sort_guilds`.  `Vec::sort_by` is a stable sort; its output on any
input coincides with stable insertion sort under the same comparator. -/
def sort_guilds (l : List GuildData) : List GuildData :=
  List.insertionSort leG l

/-! ### Members tables and the staging swap (`src/database.rs`) -/

/-- A row of `members` / `members_tmp`, with the columns named in the
`INSERT OR REPLACE` of `insert_temp_member`.  The auto-increment `id`
column is not part of the inserted data and is omitted; `REAL` columns
are modelled by `ℚ` and the `updated_at` datetime by its text form.
`className` stands for the Rust field `class`. -/
structure DbMember where
  name : String
  realm : String
  guild_name : Option String
  guild_realm : Option String
  className : Option String
  spec : Option String
  rio_score : Option ℚ
  ilvl : Option Int
  rio_all : ℚ
  rio_dps : ℚ
  rio_healer : ℚ
  rio_tank : ℚ
  spec_0 : ℚ
  spec_1 : ℚ
  spec_2 : ℚ
  spec_3 : ℚ
  updated_at : String
deriving DecidableEq

/-- The `UNIQUE(name, realm)` key of the members tables. -/
def DbMember.key (m : DbMember) : String × String := (m.name, m.realm)

/-- `insert_temp_member`: `INSERT OR REPLACE` keyed by `(name, realm)` -
the conflicting row (if any) is deleted and the new row inserted. -/
def upsertTmp (t : List DbMember) (m : DbMember) : List DbMember :=
  (t.filter fun r => decide (r.key ≠ m.key)) ++ [m]

/-- The rows of a table carrying a given key. -/
def keyRows (t : List DbMember) (k : String × String) : List DbMember :=
  t.filter fun r => decide (r.key = k)

/-- The last member with key `k` in an upsert sequence, if any. -/
def lastWrite (ms : List DbMember) (k : String × String) : Option DbMember :=
  ms.foldl (fun o m => if m.key = k then some m else o) none

/-- The SQLite schema visible to `swap_members_tables`: the three table
slots, each present or absent. -/
structure DBState where
  members : Option (List DbMember)
  members_tmp : Option (List DbMember)
  members_old : Option (List DbMember)
deriving DecidableEq

/-- `DROP TABLE IF EXISTS members_old`: always succeeds. -/
def stmtDropOld (s : DBState) : Option DBState :=
  some { s with members_old := none }

/-- `ALTER TABLE members RENAME TO members_old`: fails when the source
table is missing or the target name is taken. -/
def stmtRenameMembersToOld (s : DBState) : Option DBState :=
  match s.members, s.members_old with
  | some t, none => some { s with members := none, members_old := some t }
  | _, _ => none

/-- `ALTER TABLE members_tmp RENAME TO members`. -/
def stmtRenameTmpToMembers (s : DBState) : Option DBState :=
  match s.members_tmp, s.members with
  | some t, none => some { s with members_tmp := none, members := some t }
  | _, _ => none

/-- `CREATE TABLE members_tmp (...)`: fails when the name is taken. -/
def stmtCreateTmp (s : DBState) : Option DBState :=
  match s.members_tmp with
  | none => some { s with members_tmp := some [] }
  | some _ => none

/-- The four statements executed by `swap_members_tables`, in source
order, all inside one transaction. -/
def swapStmts : List (DBState → Option DBState) :=
  [stmtDropOld, stmtRenameMembersToOld, stmtRenameTmpToMembers, stmtCreateTmp]

/-- Run statements sequentially on a transaction working state; the
first failing statement aborts. -/
def runStmts (s : DBState) : List (DBState → Option DBState) → Option DBState
  | [] => some s
  | f :: fs =>
    match f s with
    | some s2 => runStmts s2 fs
    | none => none

/-- The working state after the first `j` statements of a transaction
(`none` once a statement has failed). -/
def txPrefix (s : DBState) (stmts : List (DBState → Option DBState)) (j : Nat) :
    Option DBState :=
  runStmts s (stmts.take j)

/-- Rolling a transaction back: the working state is discarded and
readers keep the pre-transaction state (the SQLite transaction
contract that `swap_members_tables` relies on). -/
def txRollback (pre : DBState) (_working : Option DBState) : DBState := pre

/-- `swap_members_tables`: the committed state when every statement
succeeds, `none` when the transaction aborts. -/
def swap_members_tables (s : DBState) : Option DBState :=
  runStmts s swapStmts

/-- What read-side queries look at: the `members` table. -/
def readActiveMembers (s : DBState) : Option (List DbMember) := s.members

/-! ### Fetch pipelines (`src/parser.rs`, `src/guild_data.rs`) -/

/-- Result of one fetch after the retry layer: `Ok(Some(..))`,
`Ok(None)` (HTTP 404 / no data), or `Err(..)` (terminal failure). -/
inductive FetchOutcome (α : Type) : Type
  | success (v : α)
  | notFound
  | failure
deriving DecidableEq

/-- Whether an outcome is `Ok(Some(..))`. -/
def FetchOutcome.isSuccess {α : Type} : FetchOutcome α → Bool
  | .success _ => true
  | .notFound => false
  | .failure => false

/-- Per-job result in `fetch_all_guild_data`: the `match` on
`client.fetch_guild_data(..)` maps `Ok(None)` and `Err(..)` both to
`None`. -/
def guildJobRecord : FetchOutcome GuildData → Option GuildData
  | .success g => some g
  | .notFound => none
  | .failure => none

/-- `fetch_all_guild_data` after the concurrent fetches: the collected
`Vec<Option<GuildData>>` is flattened, dropping every `None`. -/
def fetch_all_guild_data (outcomes : List (FetchOutcome GuildData)) : List GuildData :=
  (outcomes.map guildJobRecord).filterMap id

/-! ### Name constructors (`src/types.rs`) and player records -/

/-- `GuildName::new`: asserts the trimmed name nonempty (`none` models
the panic), then stores the trimmed string. -/
def guildNameNew (s : String) : Option String :=
  if trimChars s.data = [] then none
  else some (trimChars s.data).asString

/-- `RealmName::new`: asserts nonempty, then trims, lowercases and
replaces spaces by hyphens (`char::to_lowercase` is modelled by
`Char.toLower`; the two agree on ASCII). -/
def realmNameNew (s : String) : Option String :=
  if trimChars s.data = [] then none
  else some (((trimChars s.data).map Char.toLower).map
    fun c => if c = ' ' then '-' else c).asString

/-- `PlayerName::normalize_name`: first char uppercased, the rest
lowercased. -/
def playerNameNormalize (s : String) : String :=
  match trimChars s.data with
  | [] => ""
  | c :: cs => (Char.toUpper c :: cs.map Char.toLower).asString

/-- `PlayerName::new`: asserts the trimmed name nonempty, then
normalizes. -/
def playerNameNew (s : String) : Option String :=
  if trimChars s.data = [] then none
  else some (playerNameNormalize s)

/-- The per-season score block of the raider.io player response
(`mythic_plus_scores_by_season[i].scores`). -/
structure MPlusScores where
  all : Option Nat
  dps : Option Nat
  healer : Option Nat
  tank : Option Nat
  spec_0 : Option Nat
  spec_1 : Option Nat
  spec_2 : Option Nat
  spec_3 : Option Nat
deriving DecidableEq

/-- The parsed JSON body of a successful player lookup
(`RaiderIOPlayerResponse`); `className` stands for `class`. -/
structure PlayerResponse where
  name : String
  realm : String
  guild : Option String
  className : Option String
  active_spec_name : Option String
  mythic_plus_scores_by_season : Option (List MPlusScores)
deriving DecidableEq

/-- `PlayerData` (`src/raider_io.rs`); the name fields hold the
normalized strings inside `PlayerName` / `RealmName` / `GuildName`, the
scores the `u32` inside `MythicPlusScore`. -/
structure PlayerData where
  name : String
  realm : String
  guild : Option String
  className : Option String
  active_spec_name : Option String
  rio_all : Nat
  rio_dps : Nat
  rio_healer : Nat
  rio_tank : Nat
  spec_0 : Nat
  spec_1 : Nat
  spec_2 : Nat
  spec_3 : Nat
deriving DecidableEq

/-- Building the `PlayerData` value at the end of `fetch_player_data`:
`PlayerName::from` / `RealmName::from` / `GuildName::from` call the
asserting constructors (`none` models a panic escaping), the scores
come from the first season block with `unwrap_or(zero)`. -/
def build_player_data (guild : Option String) (resp : PlayerResponse) :
    Option PlayerData := do
  let n ← playerNameNew resp.name
  let r ← realmNameNew resp.realm
  let g ← match guild with
    | some g0 => some (some g0)
    | none =>
      match resp.guild with
      | some gn => (guildNameNew gn).map some
      | none => some none
  let scores := resp.mythic_plus_scores_by_season.bind List.head?
  some { name := n, realm := r, guild := g, className := resp.className,
         active_spec_name := resp.active_spec_name,
         rio_all := (scores.bind MPlusScores.all).getD 0,
         rio_dps := (scores.bind MPlusScores.dps).getD 0,
         rio_healer := (scores.bind MPlusScores.healer).getD 0,
         rio_tank := (scores.bind MPlusScores.tank).getD 0,
         spec_0 := (scores.bind MPlusScores.spec_0).getD 0,
         spec_1 := (scores.bind MPlusScores.spec_1).getD 0,
         spec_2 := (scores.bind MPlusScores.spec_2).getD 0,
         spec_3 := (scores.bind MPlusScores.spec_3).getD 0 }

/-- The HTTP result seen by `fetch_player_data` after the retry layer. -/
inductive PlayerHttp : Type
  | ok (resp : PlayerResponse)
  | notFound
  | httpError
deriving DecidableEq

/-- The Rust return value of `fetch_player_data`:
`Ok(Some(..))`, `Ok(None)` or `Err(..)`. -/
inductive PlayerFetchResult : Type
  | found (p : PlayerData)
  | noData
  | fetchError
deriving DecidableEq

/-- `fetch_player_data` after the request: 404 resolves to `Ok(None)`,
other failing statuses to `Err(..)`, and a parsed body to the record
construction; `none` models a panic escaping the function. -/
def fetch_player_data (guild : Option String) : PlayerHttp → Option PlayerFetchResult
  | .notFound => some .noData
  | .httpError => some .fetchError
  | .ok resp => (build_player_data guild resp).map .found

/-- One roster entry driving a player fetch in `generate_members_data`:
the raw `(realm, name)` key of `data_dict` plus the guild, class and
spec recorded from the roster. -/
structure PlayerJob where
  realm : String
  name : String
  guild : Option String
  className : Option String
  spec : Option String
deriving DecidableEq

/-- The placeholder record built in the `Ok(None)` and exhausted-`Err`
arms of the retry loop in `generate_members_data`: identity from the
job, roster guild/class/spec, all scores zero.  `none` models the
panic of `PlayerName::from` / `RealmName::from` on whitespace-only
input. -/
def playerPlaceholder (j : PlayerJob) : Option PlayerData := do
  let n ← playerNameNew j.name
  let r ← realmNameNew j.realm
  some { name := n, realm := r, guild := j.guild, className := j.className,
         active_spec_name := j.spec, rio_all := 0, rio_dps := 0, rio_healer := 0,
         rio_tank := 0, spec_0 := 0, spec_1 := 0, spec_2 := 0, spec_3 := 0 }

/-- Per-job result of the player pipeline: a populated record with
`success = true`, or the placeholder with `success = false`. -/
def playerJobRecord (j : PlayerJob) : FetchOutcome PlayerData → Option (PlayerData × Bool)
  | .success p => some (p, true)
  | .notFound => (playerPlaceholder j).map fun p => (p, false)
  | .failure => (playerPlaceholder j).map fun p => (p, false)

/-- Collect the per-job results of the player pipeline; `none` as soon
as one job panics. -/
def collectJobResults : List (PlayerJob × FetchOutcome PlayerData) →
    Option (List (PlayerData × Bool))
  | [] => some []
  | jo :: rest =>
    match playerJobRecord jo.1 jo.2, collectJobResults rest with
    | some r, some rs => some (r :: rs)
    | _, _ => none

/-- The completed stream of `generate_members_data`, one entry per
submitted job (`none` when some placeholder construction panics). -/
def generate_members_results (jobs : List PlayerJob)
    (outcomes : List (FetchOutcome PlayerData)) : Option (List (PlayerData × Bool)) :=
  collectJobResults (jobs.zip outcomes)

/-! ### The retry loop (`src/raider_io.rs`, `execute_request_with_retry`) -/

/-- One HTTP attempt: a status code, or a transport error. -/
inductive HttpAttempt : Type
  | status (code : Nat)
  | netError
deriving DecidableEq

/-- How the retry loop terminates. -/
inductive RetryOutcome : Type
  | success (code : Nat)
  | errRateLimit
  | errServer (code : Nat)
  | errNet
  | unexpectedExit
deriving DecidableEq

/-- Body of `for attempt in 0..=max_retries`, counting issued requests:
429 and 5xx retry while `attempt < max_retries` and turn terminal on
the last attempt; a transport error likewise; anything else returns.
`fuel` is the number of loop iterations left; `unexpectedExit` models
the unreachable code after the loop. -/
def retryGo (maxRetries : Nat) (resp : Nat → HttpAttempt) :
    Nat → Nat → Nat × RetryOutcome
  | _, 0 => (0, .unexpectedExit)
  | attempt, fuel + 1 =>
    match resp attempt with
    | .status code =>
      if code = 429 then
        if attempt < maxRetries then
          let r := retryGo maxRetries resp (attempt + 1) fuel
          (r.1 + 1, r.2)
        else (1, .errRateLimit)
      else if 500 ≤ code ∧ code ≤ 599 then
        if attempt < maxRetries then
          let r := retryGo maxRetries resp (attempt + 1) fuel
          (r.1 + 1, r.2)
        else (1, .errServer code)
      else (1, .success code)
    | .netError =>
      if attempt < maxRetries then
        let r := retryGo maxRetries resp (attempt + 1) fuel
        (r.1 + 1, r.2)
      else (1, .errNet)

/-- `execute_request_with_retry`: the loop runs attempts `0..=max_retries`,
so at most `max_retries + 1` iterations.  Returns the number of HTTP
requests issued and the outcome. -/
def execute_request_with_retry (maxRetries : Nat) (resp : Nat → HttpAttempt) :
    Nat × RetryOutcome :=
  retryGo maxRetries resp 0 (maxRetries + 1)

/-! ### Lemmas: the generic comparators -/

theorem cmpLin_eq_lt {α : Type} [LinearOrder α] {x y : α} :
    cmpLin x y = .lt ↔ x < y := by
  unfold cmpLin
  split_ifs with h1 h2
  · simp [h1]
  · simp [h2, lt_irrefl]
  · simp [h1]

theorem cmpLin_eq_eq {α : Type} [LinearOrder α] {x y : α} :
    cmpLin x y = .eq ↔ x = y := by
  unfold cmpLin
  split_ifs with h1 h2
  · simp [ne_of_lt h1]
  · simp [h2]
  · simp [h2]

theorem cmpLin_eq_gt {α : Type} [LinearOrder α] {x y : α} :
    cmpLin x y = .gt ↔ y < x := by
  unfold cmpLin
  split_ifs with h1 h2
  · simp [lt_asymm h1]
  · simp [h2, lt_irrefl]
  · have h3 : y < x := lt_of_le_of_ne (not_lt.mp h1) fun h => h2 h.symm
    simp [h3]

theorem cmpLin_ne_gt {α : Type} [LinearOrder α] {x y : α} :
    cmpLin x y ≠ .gt ↔ x ≤ y := by
  rw [ne_eq, cmpLin_eq_gt, not_lt]

theorem cmpLin_swap {α : Type} [LinearOrder α] (x y : α) :
    cmpLin y x = (cmpLin x y).swap := by
  rcases lt_trichotomy x y with h | h | h
  · rw [cmpLin_eq_lt.mpr h, cmpLin_eq_gt.mpr h]; rfl
  · rw [cmpLin_eq_eq.mpr h, cmpLin_eq_eq.mpr h.symm]; rfl
  · rw [cmpLin_eq_gt.mpr h, cmpLin_eq_lt.mpr h]; rfl

theorem cmpLin_self {α : Type} [LinearOrder α] (x : α) : cmpLin x x = .eq :=
  cmpLin_eq_eq.mpr rfl

/-- Every `Ordering` other than `.gt` is `.lt` or `.eq`. -/
theorem ordering_ne_gt {o : Ordering} : o ≠ .gt ↔ o = .lt ∨ o = .eq := by
  cases o <;> simp

theorem cmpCharList_cons (c d : Char) (cs ds : List Char) :
    cmpCharList (c :: cs) (d :: ds) =
      if c < d then .lt else if c = d then cmpCharList cs ds else .gt := by
  simp only [cmpCharList, cmpLin]
  split_ifs <;> rfl

theorem cmpCharList_eq_eq : ∀ {l₁ l₂ : List Char}, cmpCharList l₁ l₂ = .eq ↔ l₁ = l₂ := by
  intro l₁
  induction l₁ with
  | nil => intro l₂; cases l₂ <;> simp [cmpCharList]
  | cons c cs ih =>
    intro l₂
    cases l₂ with
    | nil => simp [cmpCharList]
    | cons d ds =>
      rw [cmpCharList_cons]
      by_cases h1 : c < d
      · simp [h1, ne_of_lt h1]
      · by_cases h2 : c = d
        · subst h2; simp [h1, ih]
        · simp [h1, h2]

theorem cmpCharList_swap : ∀ (l₁ l₂ : List Char),
    cmpCharList l₂ l₁ = (cmpCharList l₁ l₂).swap := by
  intro l₁
  induction l₁ with
  | nil => intro l₂; cases l₂ <;> simp [cmpCharList, Ordering.swap]
  | cons c cs ih =>
    intro l₂
    cases l₂ with
    | nil => simp [cmpCharList, Ordering.swap]
    | cons d ds =>
      rw [cmpCharList_cons, cmpCharList_cons]
      by_cases h1 : c < d
      · rw [if_neg (lt_asymm h1), if_neg (Ne.symm (ne_of_lt h1)), if_pos h1]; rfl
      · by_cases h2 : c = d
        · subst h2
          rw [if_neg h1, if_neg h1, if_pos rfl, if_pos rfl]
          exact ih ds
        · have h3 : d < c := lt_of_le_of_ne (not_lt.mp h1) fun h => h2 h.symm
          rw [if_pos h3, if_neg h1, if_neg h2]; rfl

theorem cmpCharList_lt_trans : ∀ {l₁ l₂ l₃ : List Char},
    cmpCharList l₁ l₂ = .lt → cmpCharList l₂ l₃ = .lt → cmpCharList l₁ l₃ = .lt := by
  intro l₁
  induction l₁ with
  | nil =>
    intro l₂ l₃ h12 h23
    cases l₂ with
    | nil => exact h23
    | cons d ds =>
      cases l₃ with
      | nil => simp [cmpCharList] at h23
      | cons e es => simp [cmpCharList]
  | cons c cs ih =>
    intro l₂ l₃ h12 h23
    cases l₂ with
    | nil => simp [cmpCharList] at h12
    | cons d ds =>
      cases l₃ with
      | nil => simp [cmpCharList] at h23
      | cons e es =>
        rw [cmpCharList_cons] at h12 h23 ⊢
        by_cases hcd : c < d
        · by_cases hde : d < e
          · simp [lt_trans hcd hde]
          · by_cases hde2 : d = e
            · subst hde2; simp [hcd]
            · simp [hde, hde2] at h23
        · by_cases hcd2 : c = d
          · subst hcd2
            by_cases hce : c < e
            · simp [hce]
            · by_cases hce2 : c = e
              · subst hce2
                rw [if_neg hce, if_pos rfl] at h12 h23 ⊢
                exact ih h12 h23
              · simp [hce, hce2] at h23
          · simp [hcd, hcd2] at h12

/-- The non-strict comparison on char lists is transitive. -/
theorem cmpCharList_le_trans {l₁ l₂ l₃ : List Char}
    (h12 : cmpCharList l₁ l₂ ≠ .gt) (h23 : cmpCharList l₂ l₃ ≠ .gt) :
    cmpCharList l₁ l₃ ≠ .gt := by
  rcases ordering_ne_gt.mp h12 with h12 | h12
  · rcases ordering_ne_gt.mp h23 with h23 | h23
    · exact ordering_ne_gt.mpr (.inl (cmpCharList_lt_trans h12 h23))
    · rw [cmpCharList_eq_eq.mp h23] at h12
      exact ordering_ne_gt.mpr (.inl h12)
  · rw [cmpCharList_eq_eq.mp h12]
    exact h23

theorem cmpStr_swap (s t : String) : cmpStr t s = (cmpStr s t).swap :=
  cmpCharList_swap s.data t.data

theorem cmpStr_le_trans {s t u : String}
    (h12 : cmpStr s t ≠ .gt) (h23 : cmpStr t u ≠ .gt) : cmpStr s u ≠ .gt :=
  cmpCharList_le_trans h12 h23

/-! ### Lemmas: structure of the ranking comparator -/

theorem difficulty_toNat_inj : ∀ (d e : Difficulty), d.toNat = e.toNat → d = e := by
  intro d e
  cases d <;> cases e <;> simp [Difficulty.toNat]

/-- The trailing `match` of the comparator is `Ordering.then`. -/
theorem ordering_match_then (o p : Ordering) :
    (match o with | .eq => p | o1 => o1) = o.then p := by
  cases o <;> rfl

theorem cmpThen_le {m n : Nat} {o : Ordering} :
    (cmpLin m n).then o ≠ .gt ↔ m < n ∨ (m = n ∧ o ≠ .gt) := by
  rcases lt_trichotomy m n with h | h | h
  · rw [cmpLin_eq_lt.mpr h]
    simp only [Ordering.then]
    constructor
    · intro _; exact .inl h
    · intro _; simp
  · rw [cmpLin_eq_eq.mpr h]
    simp only [Ordering.then]
    constructor
    · intro ho; exact .inr ⟨h, ho⟩
    · rintro (hlt | ⟨_, ho⟩)
      · omega
      · exact ho
  · rw [cmpLin_eq_gt.mpr h]
    simp only [Ordering.then]
    constructor
    · intro hgt; exact absurd rfl hgt
    · rintro (hlt | ⟨he, _⟩) <;> omega

theorem cmpGuilds_ne_diff {a b : GuildData}
    (hd : (parse_progression a.progress).2 ≠ (parse_progression b.progress).2) :
    cmpGuilds a b =
      cmpLin (parse_progression b.progress).2.toNat (parse_progression a.progress).2.toNat := by
  unfold cmpGuilds
  rw [if_pos hd]
  rfl

theorem cmpGuilds_special {a b : GuildData}
    (hd : (parse_progression a.progress).2 = (parse_progression b.progress).2)
    (hs : (parse_progression a.progress).2 = .Mythic ∧ (parse_progression a.progress).1 = 8 ∧
      (parse_progression b.progress).1 = 8) :
    cmpGuilds a b = rankTie a b := by
  unfold cmpGuilds
  rw [if_neg (by simpa using hd), if_pos hs]

theorem cmpGuilds_general {a b : GuildData}
    (hd : (parse_progression a.progress).2 = (parse_progression b.progress).2)
    (hs : ¬((parse_progression a.progress).2 = .Mythic ∧ (parse_progression a.progress).1 = 8 ∧
      (parse_progression b.progress).1 = 8)) :
    cmpGuilds a b =
      (cmpLin (parse_progression b.progress).1 (parse_progression a.progress).1).then
        (timeTie a b) := by
  unfold cmpGuilds
  rw [if_neg (by simpa using hd), if_neg hs]
  exact ordering_match_then _ _

theorem rankTie_swap (a b : GuildData) : rankTie b a = (rankTie a b).swap := by
  rcases ha : posRank a.rank with _ | ra <;> rcases hb : posRank b.rank with _ | rb <;>
    simp only [rankTie, ha, hb]
  · exact cmpLin_swap _ _
  · rfl
  · rfl
  · exact cmpLin_swap _ _

theorem rankTie_le_trans {a b c : GuildData}
    (h1 : rankTie a b ≠ .gt) (h2 : rankTie b c ≠ .gt) : rankTie a c ≠ .gt := by
  rcases ha : posRank a.rank with _ | ra <;> rcases hb : posRank b.rank with _ | rb <;>
    rcases hc : posRank c.rank with _ | rc <;>
    simp only [rankTie, ha, hb, hc] at h1 h2 ⊢ <;>
    first
      | exact absurd rfl h1
      | exact absurd rfl h2
      | (rw [cmpLin_ne_gt] at h1 h2 ⊢; exact le_trans h1 h2)
      | exact fun hx => Ordering.noConfusion hx

theorem timeTie_swap (a b : GuildData) : timeTie b a = (timeTie a b).swap := by
  rcases ha : a.defeated_at with _ | ta <;> rcases hb : b.defeated_at with _ | tb <;>
    simp only [timeTie, ha, hb]
  · exact cmpLin_swap _ _
  · rfl
  · rfl
  · exact cmpStr_swap _ _

theorem timeTie_le_trans {a b c : GuildData}
    (h1 : timeTie a b ≠ .gt) (h2 : timeTie b c ≠ .gt) : timeTie a c ≠ .gt := by
  rcases ha : a.defeated_at with _ | ta <;> rcases hb : b.defeated_at with _ | tb <;>
    rcases hc : c.defeated_at with _ | tc <;>
    simp only [timeTie, ha, hb, hc] at h1 h2 ⊢ <;>
    first
      | exact absurd rfl h1
      | exact absurd rfl h2
      | (rw [cmpLin_ne_gt] at h1 h2 ⊢; exact le_trans h1 h2)
      | exact cmpStr_le_trans h1 h2
      | exact fun hx => Ordering.noConfusion hx

/-- The comparator is antisymmetric in the `Ordering.swap` sense, so the
order it induces is total. -/
theorem cmpGuilds_swap (a b : GuildData) : cmpGuilds b a = (cmpGuilds a b).swap := by
  by_cases hd : (parse_progression a.progress).2 = (parse_progression b.progress).2
  · by_cases hs : (parse_progression a.progress).2 = .Mythic ∧
      (parse_progression a.progress).1 = 8 ∧ (parse_progression b.progress).1 = 8
    · have hs2 : (parse_progression b.progress).2 = .Mythic ∧
        (parse_progression b.progress).1 = 8 ∧ (parse_progression a.progress).1 = 8 :=
        ⟨hd ▸ hs.1, hs.2.2, hs.2.1⟩
      rw [cmpGuilds_special hd.symm hs2, cmpGuilds_special hd hs]
      exact rankTie_swap a b
    · have hs2 : ¬((parse_progression b.progress).2 = .Mythic ∧
        (parse_progression b.progress).1 = 8 ∧ (parse_progression a.progress).1 = 8) :=
        fun h => hs ⟨hd.trans h.1, h.2.2, h.2.1⟩
      rw [cmpGuilds_general hd.symm hs2, cmpGuilds_general hd hs]
      rcases hbo : cmpLin (parse_progression b.progress).1 (parse_progression a.progress).1
        with _ | _ | _
      · have hab : cmpLin (parse_progression a.progress).1 (parse_progression b.progress).1
          = .gt := by rw [cmpLin_swap, hbo]; rfl
        rw [hab]; rfl
      · have hab : cmpLin (parse_progression a.progress).1 (parse_progression b.progress).1
          = .eq := by rw [cmpLin_swap, hbo]; rfl
        rw [hab]
        simp only [Ordering.then]
        exact timeTie_swap a b
      · have hab : cmpLin (parse_progression a.progress).1 (parse_progression b.progress).1
          = .lt := by rw [cmpLin_swap, hbo]; rfl
        rw [hab]; rfl
  · rw [cmpGuilds_ne_diff (Ne.symm hd), cmpGuilds_ne_diff hd]
    exact cmpLin_swap _ _

/-- First stage of the comparator: a record that sorts no later is at a
difficulty at least as high. -/
theorem cmpGuilds_le_diff {a b : GuildData} (h : cmpGuilds a b ≠ .gt) :
    (parse_progression b.progress).2.toNat ≤ (parse_progression a.progress).2.toNat := by
  by_cases hd : (parse_progression a.progress).2 = (parse_progression b.progress).2
  · rw [hd]
  · rw [cmpGuilds_ne_diff hd] at h
    exact cmpLin_ne_gt.mp h

/-- Second stage: within one difficulty, a record that sorts no later
has at least as many bosses. -/
theorem cmpGuilds_le_boss {a b : GuildData} (h : cmpGuilds a b ≠ .gt)
    (hd : (parse_progression a.progress).2 = (parse_progression b.progress).2) :
    (parse_progression b.progress).1 ≤ (parse_progression a.progress).1 := by
  by_cases hs : (parse_progression a.progress).2 = .Mythic ∧
    (parse_progression a.progress).1 = 8 ∧ (parse_progression b.progress).1 = 8
  · rw [hs.2.1, hs.2.2]
  · rw [cmpGuilds_general hd hs] at h
    rcases cmpThen_le.mp h with h | ⟨h, _⟩
    · exact le_of_lt h
    · exact le_of_eq h

/-- The order induced by the comparator is transitive. -/
theorem leG_trans : ∀ {a b c : GuildData}, leG a b → leG b c → leG a c := by
  intro a b c h1 h2
  unfold leG at h1 h2 ⊢
  have hdb := cmpGuilds_le_diff h1
  have hdc := cmpGuilds_le_diff h2
  by_cases hac : (parse_progression a.progress).2 = (parse_progression c.progress).2
  · have hacN : (parse_progression a.progress).2.toNat =
      (parse_progression c.progress).2.toNat := by rw [hac]
    have habN : (parse_progression a.progress).2.toNat =
      (parse_progression b.progress).2.toNat := le_antisymm (by omega) hdb
    have hab : (parse_progression a.progress).2 = (parse_progression b.progress).2 :=
      difficulty_toNat_inj _ _ habN
    have hbc : (parse_progression b.progress).2 = (parse_progression c.progress).2 :=
      hab.symm.trans hac
    have hb1 := cmpGuilds_le_boss h1 hab
    have hb2 := cmpGuilds_le_boss h2 hbc
    by_cases hs : (parse_progression a.progress).2 = .Mythic ∧
      (parse_progression a.progress).1 = 8 ∧ (parse_progression c.progress).1 = 8
    · have hbb : (parse_progression b.progress).1 = 8 := by omega
      rw [cmpGuilds_special hab ⟨hs.1, hs.2.1, hbb⟩] at h1
      rw [cmpGuilds_special hbc ⟨hab ▸ hs.1, hbb, hs.2.2⟩] at h2
      rw [cmpGuilds_special hac hs]
      exact rankTie_le_trans h1 h2
    · rw [cmpGuilds_general hac hs]
      rcases lt_or_eq_of_le (le_trans hb2 hb1) with hlt | heq
      · exact cmpThen_le.mpr (.inl hlt)
      · have hba : (parse_progression b.progress).1 = (parse_progression a.progress).1 := by
          omega
        have hca : (parse_progression c.progress).1 = (parse_progression b.progress).1 := by
          omega
        have hs1 : ¬((parse_progression a.progress).2 = .Mythic ∧
          (parse_progression a.progress).1 = 8 ∧ (parse_progression b.progress).1 = 8) :=
          fun h => hs ⟨h.1, h.2.1, by omega⟩
        have hs2 : ¬((parse_progression b.progress).2 = .Mythic ∧
          (parse_progression b.progress).1 = 8 ∧ (parse_progression c.progress).1 = 8) :=
          fun h => hs ⟨hab.trans h.1, by omega, h.2.2⟩
        rw [cmpGuilds_general hab hs1] at h1
        rw [cmpGuilds_general hbc hs2] at h2
        rcases cmpThen_le.mp h1 with h1b | ⟨_, h1t⟩
        · omega
        rcases cmpThen_le.mp h2 with h2b | ⟨_, h2t⟩
        · omega
        exact cmpThen_le.mpr (.inr ⟨heq, timeTie_le_trans h1t h2t⟩)
  · rw [cmpGuilds_ne_diff hac, cmpLin_ne_gt]
    omega

/-- The order induced by the comparator is total. -/
theorem leG_total : ∀ (a b : GuildData), leG a b ∨ leG b a := by
  intro a b
  unfold leG
  rcases h : cmpGuilds a b with _ | _ | _
  · exact .inl (by simp)
  · exact .inl (by simp)
  · refine .inr ?_
    rw [cmpGuilds_swap b a] at h
    intro hgt
    rw [hgt] at h
    exact absurd h (by simp [Ordering.swap])

/-! ### Lemmas: the sort -/

theorem sort_guilds_sorted (l : List GuildData) : (sort_guilds l).Sorted leG := by
  haveI : IsTotal GuildData leG := ⟨leG_total⟩
  haveI : IsTrans GuildData leG := ⟨fun _ _ _ => leG_trans⟩
  exact List.sorted_insertionSort leG l

theorem sort_guilds_perm (l : List GuildData) : List.Perm (sort_guilds l) l :=
  List.perm_insertionSort leG l

/-- Two sorted lists that are permutations of each other coincide,
provided the order is antisymmetric on the lists' members. -/
theorem eq_of_perm_sorted_anti {α : Type} {r : α → α → Prop} :
    ∀ {l₁ l₂ : List α}, List.Perm l₁ l₂ → l₁.Sorted r → l₂.Sorted r →
      (∀ a ∈ l₁, ∀ b ∈ l₁, r a b → r b a → a = b) → l₁ = l₂ := by
  intro l₁
  induction l₁ with
  | nil =>
    intro l₂ hp _ _ _
    exact hp.nil_eq
  | cons a t₁ ih =>
    intro l₂ hp hs₁ hs₂ anti
    cases l₂ with
    | nil => exact absurd hp.symm.nil_eq (by simp)
    | cons b t₂ =>
      have hab : a = b := by
        by_cases h : a = b
        · exact h
        · have ha2 : a ∈ b :: t₂ := hp.subset (List.mem_cons_self a t₁)
          have hb1 : b ∈ a :: t₁ := hp.symm.subset (List.mem_cons_self b t₂)
          have hat2 : a ∈ t₂ := by
            rcases List.mem_cons.mp ha2 with h1 | h1
            · exact absurd h1 h
            · exact h1
          have hbt1 : b ∈ t₁ := by
            rcases List.mem_cons.mp hb1 with h1 | h1
            · exact absurd h1.symm h
            · exact h1
          have hrab : r a b := (List.sorted_cons.mp hs₁).1 b hbt1
          have hrba : r b a := (List.sorted_cons.mp hs₂).1 a hat2
          exact anti a (List.mem_cons_self a t₁) b hb1 hrab hrba
      subst hab
      have ihres := ih hp.cons_inv (List.sorted_cons.mp hs₁).2 (List.sorted_cons.mp hs₂).2
        fun x hx y hy => anti x (List.mem_cons_of_mem a hx) y (List.mem_cons_of_mem a hy)
      rw [ihres]

/-! ### Lemmas: progression parsing bounds -/

theorem parseU8_le {cs : List Char} {n : Nat} (h : parseU8? cs = some n) : n ≤ 255 := by
  unfold parseU8? at h
  simp only [Option.bind_eq_some] at h
  obtain ⟨m, _, hf⟩ := h
  by_cases hm : m ≤ 255
  · rw [if_pos hm] at hf
    cases hf
    exact hm
  · rw [if_neg hm] at hf
    exact absurd hf (by simp)

theorem parse_progression_le_255 (s : String) : (parse_progression s).1 ≤ 255 := by
  unfold parse_progression
  rcases h : parseU8? (trimChars (s.data.takeWhile fun c => c ≠ '/')) with _ | n
  · simp
  · simpa using parseU8_le h

/-! ### Lemmas: the staging swap -/

theorem keyRows_upsert (t : List DbMember) (m : DbMember) (k : String × String) :
    keyRows (upsertTmp t m) k = if m.key = k then [m] else keyRows t k := by
  unfold keyRows upsertTmp
  rw [List.filter_append, List.filter_filter]
  by_cases h : m.key = k
  · rw [if_pos h]
    have h1 : t.filter (fun r => decide (r.key = k) && decide (r.key ≠ m.key)) = [] := by
      apply List.filter_eq_nil_iff.mpr
      intro r _
      simp only [Bool.and_eq_true, decide_eq_true_eq, ne_eq, not_and, not_not]
      intro hrk
      rw [hrk, h]
    rw [h1]
    simp [h]
  · rw [if_neg h]
    have h1 : t.filter (fun r => decide (r.key = k) && decide (r.key ≠ m.key)) =
        t.filter (fun r => decide (r.key = k)) := by
      apply List.filter_congr
      intro r _
      by_cases hrk : r.key = k
      · simp [hrk, Ne.symm h]
      · simp [hrk]
    rw [h1]
    simp [h]

theorem keyRows_foldl (ms : List DbMember) (k : String × String) :
    keyRows (List.foldl upsertTmp [] ms) k = (lastWrite ms k).toList := by
  induction ms using List.reverseRecOn with
  | nil => rfl
  | append_singleton ms m ih =>
    rw [List.foldl_append, lastWrite, List.foldl_append]
    simp only [List.foldl_cons, List.foldl_nil]
    rw [keyRows_upsert]
    by_cases h : m.key = k
    · simp [h]
    · rw [if_neg h, if_neg h]
      exact ih

/-! ### Lemmas: the retry loop -/

theorem retryGo_all429 (maxRetries : Nat) (resp : Nat → HttpAttempt)
    (hresp : ∀ i, resp i = .status 429) :
    ∀ (fuel attempt : Nat), attempt + fuel = maxRetries + 1 → attempt ≤ maxRetries →
      retryGo maxRetries resp attempt fuel = (fuel, .errRateLimit) := by
  intro fuel
  induction fuel with
  | zero =>
    intro attempt h1 h2
    omega
  | succ fuel ih =>
    intro attempt h1 h2
    simp only [retryGo, hresp attempt]
    by_cases hlt : attempt < maxRetries
    · rw [if_true, if_pos hlt, ih (attempt + 1) (by omega) (by omega)]
    · rw [if_true, if_neg hlt]
      have hf : fuel = 0 := by omega
      rw [hf]

/-! ### Lemmas: placeholders and pipeline accounting -/

theorem playerNameNew_isSome {s : String} (h : trimChars s.data ≠ []) :
    playerNameNew s = some (playerNameNormalize s) := by
  unfold playerNameNew
  rw [if_neg h]

theorem realmNameNew_isSome {s : String} (h : trimChars s.data ≠ []) :
    realmNameNew s = some (((trimChars s.data).map Char.toLower).map
      fun c => if c = ' ' then '-' else c).asString := by
  unfold realmNameNew
  rw [if_neg h]

theorem playerPlaceholder_eq {j : PlayerJob}
    (hn : trimChars j.name.data ≠ []) (hr : trimChars j.realm.data ≠ []) :
    playerPlaceholder j = some
      { name := playerNameNormalize j.name,
        realm := (((trimChars j.realm.data).map Char.toLower).map
          fun c => if c = ' ' then '-' else c).asString,
        guild := j.guild, className := j.className,
        active_spec_name := j.spec, rio_all := 0, rio_dps := 0, rio_healer := 0,
        rio_tank := 0, spec_0 := 0, spec_1 := 0, spec_2 := 0, spec_3 := 0 } := by
  unfold playerPlaceholder
  rw [playerNameNew_isSome hn, realmNameNew_isSome hr]
  rfl

theorem playerJobRecord_isSome {j : PlayerJob} (o : FetchOutcome PlayerData)
    (hn : trimChars j.name.data ≠ []) (hr : trimChars j.realm.data ≠ []) :
    (playerJobRecord j o).isSome := by
  cases o with
  | success p => rfl
  | notFound => rw [playerJobRecord, playerPlaceholder_eq hn hr]; rfl
  | failure => rw [playerJobRecord, playerPlaceholder_eq hn hr]; rfl

theorem collectJobResults_total :
    ∀ (ps : List (PlayerJob × FetchOutcome PlayerData)),
      (∀ jo ∈ ps, (playerJobRecord jo.1 jo.2).isSome) →
      ∃ rs, collectJobResults ps = some rs ∧ rs.length = ps.length := by
  intro ps
  induction ps with
  | nil => intro _; exact ⟨[], rfl, rfl⟩
  | cons jo rest ih =>
    intro hall
    obtain ⟨r, hr⟩ := Option.isSome_iff_exists.mp (hall jo (List.mem_cons_self jo rest))
    obtain ⟨rs, hrs, hlen⟩ := ih fun x hx => hall x (List.mem_cons_of_mem jo hx)
    refine ⟨r :: rs, ?_, by simp [hlen]⟩
    rw [collectJobResults, hr, hrs]

theorem fetch_all_guild_data_length (outcomes : List (FetchOutcome GuildData)) :
    (fetch_all_guild_data outcomes).length = outcomes.countP FetchOutcome.isSuccess := by
  induction outcomes with
  | nil => rfl
  | cons o os ih =>
    cases o <;>
      simp [fetch_all_guild_data, guildJobRecord, FetchOutcome.isSuccess,
        List.countP_cons, List.filterMap_cons] <;>
      simpa [fetch_all_guild_data] using ih

/-! ### Claim theorems -/

/-- C1: the swap is all-or-nothing.  A transaction rolled back after any
prefix of the four swap statements leaves the active `members` table
exactly as before; when every statement succeeds, the committed state
has the staged table as the new active table, an empty staging table
and the previous active table in the backup slot; and a staging table
built by upserts from empty holds, for every `(name, realm)` key,
exactly the last record upserted under that key (duplicates collapsed,
last write wins). -/
theorem swap_members_tables_atomic :
    (∀ (s : DBState) (j : Nat),
      readActiveMembers (txRollback s (txPrefix s swapStmts j)) = readActiveMembers s)
  ∧ (∀ (m t : List DbMember) (old : Option (List DbMember)),
      swap_members_tables ⟨some m, some t, old⟩ = some ⟨some t, some [], some m⟩)
  ∧ (∀ (ms : List DbMember) (k : String × String),
      keyRows (List.foldl upsertTmp [] ms) k = (lastWrite ms k).toList) :=
  ⟨fun _ _ => rfl, fun _ _ _ => rfl, keyRows_foldl⟩

/-- C2: world rank is a tie-break only between two 8/8-Mythic records:
there, a positive rank sorts by value ascending, a record with a
positive rank precedes one whose rank is absent (the comparator treats
a zero rank as absent; the data model makes present ranks positive),
and when neither has a rank the lower best percent precedes; for every
pair of records that are not both 8/8 Mythic, the rank fields never
affect the comparison. -/
theorem sort_guilds_world_rank_scope :
    (∀ (a b : GuildData) (ra rb : Nat),
      (parse_progression a.progress).2 = .Mythic → (parse_progression a.progress).1 = 8 →
      (parse_progression b.progress).2 = .Mythic → (parse_progression b.progress).1 = 8 →
      a.rank = some ra → b.rank = some rb → 0 < ra → 0 < rb → ra < rb →
      cmpGuilds a b = .lt)
  ∧ (∀ (a b : GuildData) (ra : Nat),
      (parse_progression a.progress).2 = .Mythic → (parse_progression a.progress).1 = 8 →
      (parse_progression b.progress).2 = .Mythic → (parse_progression b.progress).1 = 8 →
      a.rank = some ra → 0 < ra → b.rank = none →
      cmpGuilds a b = .lt)
  ∧ (∀ (a b : GuildData),
      (parse_progression a.progress).2 = .Mythic → (parse_progression a.progress).1 = 8 →
      (parse_progression b.progress).2 = .Mythic → (parse_progression b.progress).1 = 8 →
      a.rank = none → b.rank = none → a.best_percent < b.best_percent →
      cmpGuilds a b = .lt)
  ∧ (∀ (a b : GuildData) (ra rb : Option Nat),
      ¬((parse_progression a.progress).2 = .Mythic ∧ (parse_progression a.progress).1 = 8 ∧
        (parse_progression b.progress).2 = .Mythic ∧ (parse_progression b.progress).1 = 8) →
      cmpGuilds { a with rank := ra } { b with rank := rb } = cmpGuilds a b) := by
  refine ⟨?_, ?_, ?_, ?_⟩
  · intro a b ra rb hMa h8a hMb h8b hra hrb h0a h0b hlt
    rw [cmpGuilds_special (hMa.trans hMb.symm) ⟨hMa, h8a, h8b⟩]
    simp only [rankTie, hra, hrb, posRank, if_pos h0a, if_pos h0b]
    exact cmpLin_eq_lt.mpr hlt
  · intro a b ra hMa h8a hMb h8b hra h0a hrb
    rw [cmpGuilds_special (hMa.trans hMb.symm) ⟨hMa, h8a, h8b⟩]
    simp only [rankTie, hra, hrb, posRank, if_pos h0a]
  · intro a b hMa h8a hMb h8b hra hrb hlt
    rw [cmpGuilds_special (hMa.trans hMb.symm) ⟨hMa, h8a, h8b⟩]
    simp only [rankTie, hra, hrb, posRank]
    exact cmpLin_eq_lt.mpr hlt
  · intro a b ra rb hn
    by_cases hd : (parse_progression a.progress).2 = (parse_progression b.progress).2
    · by_cases hs : (parse_progression a.progress).2 = .Mythic ∧
        (parse_progression a.progress).1 = 8 ∧ (parse_progression b.progress).1 = 8
      · exact absurd ⟨hs.1, hs.2.1, hd.symm.trans hs.1, hs.2.2⟩ hn
      · have e1 : cmpGuilds { a with rank := ra } { b with rank := rb } =
          (cmpLin (parse_progression b.progress).1 (parse_progression a.progress).1).then
            (timeTie a b) := cmpGuilds_general hd hs
        have e2 : cmpGuilds a b =
          (cmpLin (parse_progression b.progress).1 (parse_progression a.progress).1).then
            (timeTie a b) := cmpGuilds_general hd hs
        rw [e1, e2]
    · have e1 : cmpGuilds { a with rank := ra } { b with rank := rb } =
        cmpLin (parse_progression b.progress).2.toNat (parse_progression a.progress).2.toNat :=
        cmpGuilds_ne_diff hd
      have e2 : cmpGuilds a b =
        cmpLin (parse_progression b.progress).2.toNat (parse_progression a.progress).2.toNat :=
        cmpGuilds_ne_diff hd
      rw [e1, e2]

/-- Witness for C2: an 8/8-Mythic record at world rank 1 sorts before an
8/8-Mythic record at world rank 2. -/
theorem sort_guilds_world_rank_scope_witness :
    cmpGuilds ⟨"A", "realm1", "8/8 M", some 1, 100, none, none⟩
      ⟨"B", "realm1", "8/8 M", some 2, 100, none, none⟩ = .lt :=
  sort_guilds_world_rank_scope.1
    ⟨"A", "realm1", "8/8 M", some 1, 100, none, none⟩
    ⟨"B", "realm1", "8/8 M", some 2, 100, none, none⟩ 1 2
    (by decide) (by decide) (by decide) (by decide) rfl rfl
    (by decide) (by decide) (by decide)

/-- C3: between records whose summaries parse to different difficulty
tiers, the record at the higher tier (larger Rust discriminant, Mythic
above Heroic above Normal above LFR) always sorts first, whatever the
boss counts, ranks, percents and timestamps are. -/
theorem sort_guilds_difficulty_dominance :
    ∀ (a b : GuildData),
      (parse_progression b.progress).2.toNat < (parse_progression a.progress).2.toNat →
      cmpGuilds a b = .lt ∧ cmpGuilds b a = .gt := by
  intro a b hlt
  have hd : (parse_progression a.progress).2 ≠ (parse_progression b.progress).2 := by
    intro he
    rw [he] at hlt
    omega
  constructor
  · rw [cmpGuilds_ne_diff hd]
    exact cmpLin_eq_lt.mpr hlt
  · rw [cmpGuilds_ne_diff (Ne.symm hd)]
    exact cmpLin_eq_gt.mpr hlt

/-- Witness for C3: 1/8 Mythic sorts before 8/8 Heroic with world rank 1. -/
theorem sort_guilds_difficulty_dominance_witness :
    cmpGuilds ⟨"M", "realm1", "1/8 M", none, 25/2, none, none⟩
        ⟨"H", "realm1", "8/8 H", some 1, 100, none, none⟩ = .lt ∧
      cmpGuilds ⟨"H", "realm1", "8/8 H", some 1, 100, none, none⟩
        ⟨"M", "realm1", "1/8 M", none, 25/2, none, none⟩ = .gt :=
  sort_guilds_difficulty_dominance
    ⟨"M", "realm1", "1/8 M", none, 25/2, none, none⟩
    ⟨"H", "realm1", "8/8 H", some 1, 100, none, none⟩ (by decide)

/-- C4: within one difficulty tier and outside the double-8/8-Mythic
case, the record with strictly more parsed bosses always sorts first,
whatever the rank and percent fields are. -/
theorem sort_guilds_boss_count_dominance :
    ∀ (a b : GuildData),
      (parse_progression a.progress).2 = (parse_progression b.progress).2 →
      ¬((parse_progression a.progress).2 = .Mythic ∧ (parse_progression a.progress).1 = 8 ∧
        (parse_progression b.progress).2 = .Mythic ∧ (parse_progression b.progress).1 = 8) →
      (parse_progression b.progress).1 < (parse_progression a.progress).1 →
      cmpGuilds a b = .lt ∧ cmpGuilds b a = .gt := by
  intro a b hd _hnb hlt
  have hs1 : ¬((parse_progression a.progress).2 = .Mythic ∧
      (parse_progression a.progress).1 = 8 ∧ (parse_progression b.progress).1 = 8) := by
    rintro ⟨_, h8a, h8b⟩
    rw [h8a, h8b] at hlt
    omega
  have hs2 : ¬((parse_progression b.progress).2 = .Mythic ∧
      (parse_progression b.progress).1 = 8 ∧ (parse_progression a.progress).1 = 8) := by
    rintro ⟨_, h8b, h8a⟩
    rw [h8a, h8b] at hlt
    omega
  constructor
  · rw [cmpGuilds_general hd hs1, cmpLin_eq_lt.mpr hlt]
    rfl
  · rw [cmpGuilds_general hd.symm hs2, cmpLin_eq_gt.mpr hlt]
    rfl

/-- Witness for C4: 8/8 Heroic with no rank sorts before 6/8 Heroic with
world rank 1 (the repo's own regression scenario). -/
theorem sort_guilds_boss_count_dominance_witness :
    cmpGuilds ⟨"Should Rank FIRST", "realm1", "8/8 H", none, 100, none, none⟩
        ⟨"Should Rank SECOND", "realm1", "6/8 H", some 1, 75, some 50, none⟩ = .lt ∧
      cmpGuilds ⟨"Should Rank SECOND", "realm1", "6/8 H", some 1, 75, some 50, none⟩
        ⟨"Should Rank FIRST", "realm1", "8/8 H", none, 100, none, none⟩ = .gt :=
  sort_guilds_boss_count_dominance
    ⟨"Should Rank FIRST", "realm1", "8/8 H", none, 100, none, none⟩
    ⟨"Should Rank SECOND", "realm1", "6/8 H", some 1, 75, some 50, none⟩
    (by decide) (by decide) (by decide)

/-- Counterexample for C5: a guild fetch job that resolves to `Ok(None)`
(HTTP 404) contributes no record at all - `fetch_all_guild_data`
flattens it away, so output count 0 differs from job count 1. -/
theorem fetch_all_guild_data_drops_not_found :
    fetch_all_guild_data [FetchOutcome.notFound] = [] ∧
      (fetch_all_guild_data [FetchOutcome.notFound]).length = 0 ∧
      ([FetchOutcome.notFound] : List (FetchOutcome GuildData)).length = 1 ∧
      (0 : Nat) ≠ 1 := by
  exact ⟨rfl, rfl, rfl, by decide⟩

/-- C5 (amended): the player pipeline emits exactly one record per
submitted job - populated on success, a zeroed placeholder on 404 or
terminal failure - provided each roster name and realm is not
whitespace-only (otherwise the placeholder constructor panics); the
guild pipeline instead drops `NotFound` and failed jobs, so its output
count equals the number of successful jobs only. -/
theorem fetch_pipeline_record_accounting :
    (∀ (jobs : List PlayerJob) (outcomes : List (FetchOutcome PlayerData)),
      outcomes.length = jobs.length →
      (∀ j ∈ jobs, trimChars j.name.data ≠ [] ∧ trimChars j.realm.data ≠ []) →
      ∃ rs, generate_members_results jobs outcomes = some rs ∧ rs.length = jobs.length)
  ∧ (∀ (j : PlayerJob) (o : FetchOutcome PlayerData),
      trimChars j.name.data ≠ [] → trimChars j.realm.data ≠ [] →
      (o = .notFound ∨ o = .failure) →
      ∃ p, playerJobRecord j o = some (p, false) ∧ p.rio_all = 0 ∧ p.rio_dps = 0 ∧
        p.rio_healer = 0 ∧ p.rio_tank = 0 ∧ p.spec_0 = 0 ∧ p.spec_1 = 0 ∧
        p.spec_2 = 0 ∧ p.spec_3 = 0)
  ∧ (∀ outcomes : List (FetchOutcome GuildData),
      (fetch_all_guild_data outcomes).length = outcomes.countP FetchOutcome.isSuccess) := by
  refine ⟨?_, ?_, fetch_all_guild_data_length⟩
  · intro jobs outcomes hlen hvalid
    have hall : ∀ jo ∈ jobs.zip outcomes, (playerJobRecord jo.1 jo.2).isSome := by
      rintro ⟨j, o⟩ hjo
      have hm := List.of_mem_zip hjo
      exact playerJobRecord_isSome o (hvalid j hm.1).1 (hvalid j hm.1).2
    obtain ⟨rs, h1, h2⟩ := collectJobResults_total (jobs.zip outcomes) hall
    refine ⟨rs, h1, ?_⟩
    have hz : (jobs.zip outcomes).length = min jobs.length outcomes.length :=
      List.length_zip jobs outcomes
    omega
  · intro j o hn hr ho
    rcases ho with ho | ho <;> subst ho <;>
      rw [playerJobRecord, playerPlaceholder_eq hn hr] <;>
      exact ⟨_, rfl, rfl, rfl, rfl, rfl, rfl, rfl, rfl, rfl⟩

/-- Witness for C5: a single 404 player job still yields exactly one
(placeholder) record. -/
theorem fetch_pipeline_record_accounting_witness :
    (generate_members_results [⟨"realm1", "bob", none, none, none⟩]
      [FetchOutcome.notFound]).isSome := by
  obtain ⟨rs, h1, _⟩ := fetch_pipeline_record_accounting.1
    [⟨"realm1", "bob", none, none, none⟩] [FetchOutcome.notFound] rfl
    (by intro j hj; rw [List.mem_singleton] at hj; subst hj; exact ⟨by decide, by decide⟩)
  rw [h1]
  rfl

/-- C7: within one difficulty, with equal boss counts and outside the
double-8/8-Mythic case, a record with the lexicographically earlier
kill timestamp sorts first, a record with a timestamp sorts before one
without, and with no timestamps the lower best percent sorts first. -/
theorem sort_guilds_same_bosses_tiebreak :
    ∀ (a b : GuildData),
      (parse_progression a.progress).2 = (parse_progression b.progress).2 →
      (parse_progression a.progress).1 = (parse_progression b.progress).1 →
      ¬((parse_progression a.progress).2 = .Mythic ∧ (parse_progression a.progress).1 = 8 ∧
        (parse_progression b.progress).2 = .Mythic ∧ (parse_progression b.progress).1 = 8) →
      ((∀ ta tb, a.defeated_at = some ta → b.defeated_at = some tb →
          cmpStr ta tb = .lt → cmpGuilds a b = .lt)
       ∧ (∀ ta, a.defeated_at = some ta → b.defeated_at = none → cmpGuilds a b = .lt)
       ∧ (a.defeated_at = none → b.defeated_at = none →
          a.best_percent < b.best_percent → cmpGuilds a b = .lt)) := by
  intro a b hd hb hnb
  have hs : ¬((parse_progression a.progress).2 = .Mythic ∧
      (parse_progression a.progress).1 = 8 ∧ (parse_progression b.progress).1 = 8) := by
    rintro ⟨hM, h8a, h8b⟩
    exact hnb ⟨hM, h8a, hd.symm.trans hM, h8b⟩
  have he : cmpGuilds a b = timeTie a b := by
    rw [cmpGuilds_general hd hs, cmpLin_eq_eq.mpr hb.symm]
    rfl
  refine ⟨?_, ?_, ?_⟩
  · intro ta tb hta htb hlt
    rw [he]
    simp only [timeTie, hta, htb]
    exact hlt
  · intro ta hta htb
    rw [he]
    simp only [timeTie, hta, htb]
  · intro hta htb hlt
    rw [he]
    simp only [timeTie, hta, htb]
    exact cmpLin_eq_lt.mpr hlt

/-- Witness for C7: with equal 3/8-Mythic progress, the earlier kill
timestamp sorts first (the repo's kill-time test scenario). -/
theorem sort_guilds_same_bosses_tiebreak_witness :
    cmpGuilds
      ⟨"Earlier Kill", "realm1", "3/8 M", none, 75/2, some 100,
        some "2024-01-01T10:00:00Z"⟩
      ⟨"Later Kill", "realm1", "3/8 M", none, 75/2, some 100,
        some "2024-01-02T10:00:00Z"⟩ = .lt :=
  (sort_guilds_same_bosses_tiebreak
    ⟨"Earlier Kill", "realm1", "3/8 M", none, 75/2, some 100, some "2024-01-01T10:00:00Z"⟩
    ⟨"Later Kill", "realm1", "3/8 M", none, 75/2, some 100, some "2024-01-02T10:00:00Z"⟩
    (by decide) (by decide) (by decide)).1
    "2024-01-01T10:00:00Z" "2024-01-02T10:00:00Z" rfl rfl (by decide)

/-- Counterexample for C6: with the configured `max_retries = 10`, an
all-429 fetch issues 11 HTTP requests (the loop runs attempts
`0..=max_retries`), not 10. -/
theorem execute_request_retry_eleven :
    execute_request_with_retry 10 (fun _ => .status 429) = (11, .errRateLimit) ∧
      (11 : Nat) ≠ 10 := by
  exact ⟨rfl, by decide⟩

/-- C6 (amended): a fetch whose every attempt receives HTTP 429
terminates after exactly `max_retries + 1` attempts (the initial
attempt plus `max_retries` retries; 11 with the default 10) - never
earlier, never later - and yields the terminal rate-limit error. -/
theorem execute_request_retry_bound :
    ∀ (maxRetries : Nat) (resp : Nat → HttpAttempt),
      (∀ i, resp i = .status 429) →
      execute_request_with_retry maxRetries resp = (maxRetries + 1, .errRateLimit) := by
  intro maxRetries resp hresp
  exact retryGo_all429 maxRetries resp hresp (maxRetries + 1) 0 (by omega) (by omega)

/-- Witness for C6: the default configuration, all attempts rate
limited. -/
theorem execute_request_retry_bound_witness :
    execute_request_with_retry 10 (fun _ => .status 429) = (10 + 1, .errRateLimit) :=
  execute_request_retry_bound 10 (fun _ => .status 429) fun _ => rfl

/-- Counterexample for C8: the empty string is unparseable, yet it
parses to difficulty `Normal`, not the claimed lowest tier `Lfr`; and
the summary `"9/8 M"` parses to boss count 9, outside the claimed
range 0-8. -/
theorem parse_progression_fallback_counterexample :
    parse_progression "" = (0, Difficulty.Normal) ∧ Difficulty.Normal ≠ Difficulty.Lfr ∧
      parse_progression "9/8 M" = (9, Difficulty.Mythic) ∧ 8 < 9 := by
  exact ⟨by decide, by decide, by decide, by decide⟩

/-- C8 (amended): parsing any summary always yields a pair whose boss
count is at most 255 (the `u8` range, not 0-8), with 0 when the
numeric prefix does not parse; an input that does not end in
`M`/`H`/`N` falls back to `Normal` unless it contains `"LFR"`, and
`Lfr` is only ever produced for inputs containing `"LFR"`. -/
theorem parse_progression_fallback :
    ∀ s : String,
      (parse_progression s).1 ≤ 255 ∧
      (parseU8? (trimChars (s.data.takeWhile fun c => c ≠ '/')) = none →
        (parse_progression s).1 = 0) ∧
      ((s.data.getLast?).getD 'N' ≠ 'M' → (s.data.getLast?).getD 'N' ≠ 'H' →
        (s.data.getLast?).getD 'N' ≠ 'N' → containsSeq ['L', 'F', 'R'] s.data = false →
        (parse_progression s).2 = .Normal) ∧
      ((parse_progression s).2 = .Lfr → containsSeq ['L', 'F', 'R'] s.data = true) := by
  intro s
  refine ⟨parse_progression_le_255 s, ?_, ?_, ?_⟩
  · intro h
    unfold parse_progression
    rw [h]
    rfl
  · intro h1 h2 h3 h4
    simp only [parse_progression, Difficulty.fromProgress]
    rw [if_neg h1, if_neg h2, if_neg h3, if_neg (by simp [h4])]
  · intro h
    by_cases h4 : containsSeq ['L', 'F', 'R'] s.data = true
    · exact h4
    · exfalso
      simp only [parse_progression, Difficulty.fromProgress] at h
      split_ifs at h

/-- Witness for C8: `"No progress"` ends in `s` and does not contain
`"LFR"`, so it falls back to `Normal`. -/
theorem parse_progression_fallback_witness :
    (parse_progression "No progress").1 = 0 ∧
      (parse_progression "No progress").2 = Difficulty.Normal :=
  ⟨(parse_progression_fallback "No progress").2.1 (by decide),
   (parse_progression_fallback "No progress").2.2.1 (by decide) (by decide) (by decide)
     (by decide)⟩

/-- Counterexample for C9: two distinct records can compare equal (the
comparator never looks at names), so the order is not antisymmetric,
and the stable sort then preserves input order: the two input
permutations produce different outputs. -/
theorem sort_guilds_order_dependent :
    cmpGuilds ⟨"Guild One", "realm1", "1/8 M", none, 50, none, none⟩
        ⟨"Guild Two", "realm1", "1/8 M", none, 50, none, none⟩ = .eq
  ∧ (⟨"Guild One", "realm1", "1/8 M", none, 50, none, none⟩ : GuildData) ≠
      ⟨"Guild Two", "realm1", "1/8 M", none, 50, none, none⟩
  ∧ List.Perm
      [(⟨"Guild One", "realm1", "1/8 M", none, 50, none, none⟩ : GuildData),
        ⟨"Guild Two", "realm1", "1/8 M", none, 50, none, none⟩]
      [⟨"Guild Two", "realm1", "1/8 M", none, 50, none, none⟩,
        ⟨"Guild One", "realm1", "1/8 M", none, 50, none, none⟩]
  ∧ sort_guilds
      [⟨"Guild One", "realm1", "1/8 M", none, 50, none, none⟩,
        ⟨"Guild Two", "realm1", "1/8 M", none, 50, none, none⟩] ≠
    sort_guilds
      [⟨"Guild Two", "realm1", "1/8 M", none, 50, none, none⟩,
        ⟨"Guild One", "realm1", "1/8 M", none, 50, none, none⟩] := by
  refine ⟨by decide, by decide, List.Perm.swap _ _ _, by decide⟩

/-- C9 (amended): the comparator induces a total preorder - total and
transitive, but not antisymmetric - and `sort_guilds` is
order-independent exactly up to ties: on any two permutations of an
input in which no two distinct records compare equal, it returns the
same output list. -/
theorem sort_guilds_deterministic :
    (∀ a b : GuildData, leG a b ∨ leG b a)
  ∧ (∀ a b c : GuildData, leG a b → leG b c → leG a c)
  ∧ (∀ l₁ l₂ : List GuildData, List.Perm l₁ l₂ →
      (∀ a ∈ l₁, ∀ b ∈ l₁, cmpGuilds a b = .eq → a = b) →
      sort_guilds l₁ = sort_guilds l₂) := by
  refine ⟨leG_total, fun _ _ _ => leG_trans, ?_⟩
  intro l₁ l₂ hp hanti
  apply eq_of_perm_sorted_anti (r := leG)
  · exact (sort_guilds_perm l₁).trans (hp.trans (sort_guilds_perm l₂).symm)
  · exact sort_guilds_sorted l₁
  · exact sort_guilds_sorted l₂
  · intro a ha b hb h1 h2
    have ha1 : a ∈ l₁ := (sort_guilds_perm l₁).subset ha
    have hb1 : b ∈ l₁ := (sort_guilds_perm l₁).subset hb
    refine hanti a ha1 b hb1 ?_
    have hsw := cmpGuilds_swap a b
    rcases h : cmpGuilds a b with _ | _ | _
    · rw [h] at hsw
      exact absurd hsw h2
    · rfl
    · exact absurd h h1

/-- Witness for C9: two tie-free records sort identically from either
input order. -/
theorem sort_guilds_deterministic_witness :
    sort_guilds
      [⟨"A", "realm1", "8/8 M", some 1, 100, none, none⟩,
        ⟨"B", "realm1", "1/8 M", none, 50, none, none⟩] =
    sort_guilds
      [⟨"B", "realm1", "1/8 M", none, 50, none, none⟩,
        ⟨"A", "realm1", "8/8 M", some 1, 100, none, none⟩] :=
  sort_guilds_deterministic.2.2
    [⟨"A", "realm1", "8/8 M", some 1, 100, none, none⟩,
      ⟨"B", "realm1", "1/8 M", none, 50, none, none⟩]
    [⟨"B", "realm1", "1/8 M", none, 50, none, none⟩,
      ⟨"A", "realm1", "8/8 M", some 1, 100, none, none⟩]
    (List.Perm.swap _ _ _) (by decide)

/-- C10: the `GuildName` / `RealmName` / `PlayerName` constructors
assert their input nonempty after trimming - a whitespace-only string
is a panic (modelled as `none`), not an error value - and consequently
`fetch_player_data` panics on any parsed response whose name field is
whitespace-only, instead of resolving to its `Ok(None)` or `Err`
outcomes. -/
theorem name_constructors_panic_on_empty :
    (∀ s : String, trimChars s.data = [] →
      guildNameNew s = none ∧ realmNameNew s = none ∧ playerNameNew s = none)
  ∧ (∀ (g : Option String) (resp : PlayerResponse), trimChars resp.name.data = [] →
      fetch_player_data g (.ok resp) = none) := by
  constructor
  · intro s h
    refine ⟨?_, ?_, ?_⟩
    · unfold guildNameNew
      rw [if_pos h]
    · unfold realmNameNew
      rw [if_pos h]
    · unfold playerNameNew
      rw [if_pos h]
  · intro g resp h
    have hb : build_player_data g resp = none := by
      unfold build_player_data
      rw [show playerNameNew resp.name = none from by unfold playerNameNew; rw [if_pos h]]
      rfl
    show Option.map PlayerFetchResult.found (build_player_data g resp) = none
    rw [hb]
    rfl

/-- Witness for C10: the whitespace-only string and a response with an
empty name both panic. -/
theorem name_constructors_panic_on_empty_witness :
    guildNameNew " " = none ∧ realmNameNew " " = none ∧ playerNameNew " " = none ∧
      fetch_player_data none (.ok ⟨"", "realm1", none, none, none, none⟩) = none :=
  ⟨(name_constructors_panic_on_empty.1 " " (by decide)).1,
   (name_constructors_panic_on_empty.1 " " (by decide)).2.1,
   (name_constructors_panic_on_empty.1 " " (by decide)).2.2,
   name_constructors_panic_on_empty.2 none ⟨"", "realm1", none, none, none, none⟩
     (by decide)⟩
